import Mathlib

/-
Verification development for the inferable-go client SDK.

The definitions below are a shallow embedding of the SDK's core:
the JSON-schema generation and validation performed by
`service.RegisterFunc`, the reflective dispatch of `service.handleMessage`,
the batch handling and server-driven backoff of `service.poll`, the
polling goroutine started by `service.Start`, and the machine-id
derivation of `util.GenerateMachineID` / `inferable.New`.

Go maps are modelled as association lists, Go's `interface{}` JSON
payloads as a `JValue` tree, Go struct types (as seen by `reflect`) as a
`GoType` tree, and the `invopop/jsonschema` reflector's output as a
`JSchema` tree together with its `encoding/json` serialization.
-/

namespace Inferable

/-- A JSON value, modelling the `interface{}` payloads the SDK passes
around (call inputs, handler results, response bodies). Numbers are
modelled as integers; the claims under study involve no fractional
values. -/
inductive JValue where
  | null
  | bool (b : Bool)
  | num (n : Int)
  | str (s : String)
  | arr (xs : List JValue)
  | obj (fields : List (String × JValue))

/-- A Go type as `reflect` sees it, restricted to the shapes the SDK's
schema generator handles: primitives, slices, and struct types. A struct
carries its `reflect.Type.Name()` (the empty string for an anonymous
struct literal) and its exported fields as
`(json tag name, has omitempty marker, field type)` triples. -/
inductive GoType where
  | int
  | str
  | bool
  | slice (elem : GoType)
  | structT (name : String) (fields : List (String × Bool × GoType))

/-- `reflect.Kind() == reflect.Struct`, the check on the handler's sole
argument in `RegisterFunc`. -/
def GoType.isStruct : GoType → Bool
  | .structT _ _ => true
  | _ => false

/-- `reflect.Type.Name()`: the declared name of the type, `""` for
unnamed types. Used as the key into the reflector's `Definitions` map. -/
def GoType.typeName : GoType → String
  | .structT n _ => n
  | _ => ""

/-- A JSON-Schema fragment as produced by the `invopop/jsonschema`
reflector: primitive schemas, array schemas, object schemas (properties,
required list, and whether `"additionalProperties": false` is emitted),
and `$ref` nodes pointing into the document's `$defs`. -/
inductive JSchema where
  | prim (ty : String)
  | arr (items : JSchema)
  | obj (props : List (String × JSchema)) (required : List String) (addProps : Bool)
  | ref (name : String)

/-- The `required` list the reflector generates for a struct: the json
names of exactly the fields that carry no `omitempty` marker, in field
order. -/
def requiredOf (fields : List (String × Bool × GoType)) : List String :=
  (fields.filter (fun f => !f.2.1)).map (fun f => f.1)

mutual

/-- How the reflector renders a Go type occurring as a field (or array
element) type: primitives and slices map to primitive and array schemas,
an anonymous struct literal is inlined as an object schema (with
`additionalProperties: false`), and a distinct named struct type becomes
an external `$ref` into `$defs`. -/
def reflectType : GoType → JSchema
  | .int => .prim "integer"
  | .str => .prim "string"
  | .bool => .prim "boolean"
  | .slice t => .arr (reflectType t)
  | .structT name fields =>
      if name == "" then .obj (reflectFields fields) (requiredOf fields) true
      else .ref name

/-- The properties map of a struct's object schema: each field's json
name mapped to the schema of its type. -/
def reflectFields : List (String × Bool × GoType) → List (String × JSchema)
  | [] => []
  | (n, _, t) :: rest => (n, reflectType t) :: reflectFields rest

end

mutual

/-- The reflector's `Definitions` (`$defs`) map: one entry per named
struct type reachable from the reflected type, keyed by its type name and
holding its object schema. -/
def collectDefs : GoType → List (String × JSchema)
  | .int => []
  | .str => []
  | .bool => []
  | .slice t => collectDefs t
  | .structT name fields =>
      (if name == "" then []
       else [(name, JSchema.obj (reflectFields fields) (requiredOf fields) true)])
        ++ collectDefsFields fields

/-- Definitions contributed by a struct's field types. -/
def collectDefsFields : List (String × Bool × GoType) → List (String × JSchema)
  | [] => []
  | (_, _, t) :: rest => collectDefs t ++ collectDefsFields rest

end

/-- `jsonschema.Reflector{}.Reflect` on a pointer to the argument type:
never nil in practice; modelled as always returning the definitions map
(the Go code still guards against a nil schema). -/
def reflectSchema (t : GoType) : Option (List (String × JSchema)) :=
  some (collectDefs t)

/-- The opening brace character, written via its code point. -/
def lbrace : Char := Char.ofNat 123

/-- The closing brace character, written via its code point. -/
def rbrace : Char := Char.ofNat 125

/-- `encoding/json` string escaping, restricted to the two escapes that
matter for the schema strings at hand (quote and backslash). -/
def jsonEscapeChar (c : Char) : List Char :=
  if c == '"' || c == '\\' then ['\\', c] else [c]

/-- Escape every character of a string for JSON output. -/
def jsonEscape (s : String) : List Char :=
  s.data.foldr (fun c acc => jsonEscapeChar c ++ acc) []

/-- Serialize a JSON string literal: quote, escaped content, quote. -/
def jsonStr (s : String) : List Char :=
  '"' :: jsonEscape s ++ ['"']

/-- Serialize a `required` list: a JSON array of string literals. -/
def marshalRequired : List String → List Char
  | [] => []
  | [n] => jsonStr n
  | n :: rest => jsonStr n ++ ',' :: marshalRequired rest

mutual

/-- `json.Marshal` of a schema node, modelling how `encoding/json`
serializes an `invopop/jsonschema.Schema` value (compact output, no
spaces; key order fixed; empty `required` omitted as in the Go struct's
`omitempty` tag). Only the presence or absence of the
`"$ref":"#/$defs/..."` byte sequence matters to the SDK, which scans this
output with `strings.Contains`. -/
def marshalSchema : JSchema → List Char
  | .prim ty => lbrace :: ("\"type\":\"").data ++ jsonEscape ty ++ '"' :: [rbrace]
  | .arr items =>
      lbrace :: ("\"type\":\"array\",\"items\":").data ++ marshalSchema items ++ [rbrace]
  | .obj props required addProps =>
      lbrace :: ("\"type\":\"object\",\"properties\":").data
        ++ lbrace :: marshalProps props ++ [rbrace]
        ++ (if addProps then (",\"additionalProperties\":false").data else [])
        ++ (if required.isEmpty then []
            else (",\"required\":[").data ++ marshalRequired required ++ [']'])
        ++ [rbrace]
  | .ref name =>
      lbrace :: ("\"$ref\":\"#/$defs/").data ++ jsonEscape name ++ '"' :: [rbrace]

/-- Serialize an object's properties: comma-separated `"name":schema`
pairs. -/
def marshalProps : List (String × JSchema) → List Char
  | [] => []
  | [(n, s)] => jsonStr n ++ ':' :: marshalSchema s
  | (n, s) :: rest => jsonStr n ++ ':' :: marshalSchema s ++ ',' :: marshalProps rest

end

/-- The byte sequence `RegisterFunc` scans the marshalled definition for:
a `$ref` into the document's `$defs`. -/
def refNeedle : List Char := ("\"$ref\":\"#/$defs").data

/-- `strings.Contains(hay, needle)`, as a decidable infix test on
character lists. -/
def stringContains (hay needle : List Char) : Bool :=
  decide (needle <:+: hay)

/-- The error returned when a function name is registered twice on one
service. -/
def dupErrMsg (fnName svcName : String) : String :=
  "function with name " ++ "'" ++ fnName ++ "'" ++ " already registered for service "
    ++ "'" ++ svcName ++ "'"

/-- The error returned when the generated schema contains an external
`$ref`. -/
def refErrMsg (fnName : String) : String :=
  "schema for function '" ++ fnName
    ++ "' contains a $ref to an external definition. this is currently not supported. see https://go.inferable.ai/go-schema-limitation for details"

/-- One return value of a reflectively invoked handler: either an
ordinary value (its JSON view) or a value of an error-like type, which is
`nil` or carries its `Error()` description. -/
inductive RetVal where
  | value (v : JValue)
  | error (e : Option String)

/-- The dynamic part of a registered `Func`: the arity `reflect` reports,
the type of the first parameter, and the reflective call itself, mapping
the (decoded) JSON input to the list of return values. -/
structure Handler where
  numIn : Nat
  argType : GoType
  run : JValue → List RetVal

/-- The SDK's `Function` record: name, description, the schema filled in
by `RegisterFunc`, and the handler. -/
structure Func where
  Name : String
  Description : String
  schema : Option JSchema
  Fn : Handler

/-- The SDK's `service`: its name, the registered functions (a Go map,
modelled as an association list), the cluster id obtained from the
registration handshake, and the current poll backoff in seconds. -/
structure Service where
  Name : String
  Functions : List (String × Func)
  clusterId : String
  retryAfter : Int

/-- `service.RegisterFunc`: reject duplicate names, validate that the
handler takes exactly one struct argument, reflect the argument's schema,
look its definition up by type name, marshal it and reject external
`$ref`s, then clear the top-level `additionalProperties` and store the
function. Error paths return the service unchanged, mirroring the Go
code's early returns before the map assignment; `json.Marshal` of a
schema value cannot fail and its error branch has no model. -/
def RegisterFunc (s : Service) (fn : Func) : Service × Option String :=
  if (s.Functions.lookup fn.Name).isSome then
    (s, some (dupErrMsg fn.Name s.Name))
  else if !(fn.Fn.numIn == 1) then
    (s, some ("function " ++ "'" ++ fn.Name ++ "'" ++ " must have exactly one argument"))
  else if !fn.Fn.argType.isStruct then
    (s, some ("function " ++ "'" ++ fn.Name ++ "'" ++ " argument must be a struct"))
  else
    match reflectSchema fn.Fn.argType with
    | none => (s, some ("failed to get schema for function " ++ "'" ++ fn.Name ++ "'"))
    | some defsMap =>
      match defsMap.lookup fn.Fn.argType.typeName with
      | none =>
          (s, some ("failed to find schema definition for " ++ fn.Fn.argType.typeName))
      | some defs =>
        if stringContains (marshalSchema defs) refNeedle then
          (s, some (refErrMsg fn.Name))
        else
          let stored : JSchema :=
            match defs with
            | .obj props required _ => .obj props required false
            | other => other
          ({ s with Functions := (fn.Name, { fn with schema := some stored }) :: s.Functions },
           none)

/-- Lookup of a struct field's type by its json name, as
`encoding/json` does when decoding an object key. -/
def findField (fields : List (String × Bool × GoType)) (k : String) : Option GoType :=
  match fields with
  | [] => none
  | (n, _, t) :: rest => if n == k then some t else findField rest k

mutual

/-- Whether `json.Unmarshal` of the given JSON value into a freshly
allocated value of the given Go type succeeds: `null` decodes into
anything, primitives must match, arrays decode elementwise, and objects
decode field by field (unknown keys are ignored, missing fields keep
their zero value). -/
def decodes : GoType → JValue → Bool
  | _, .null => true
  | .int, .num _ => true
  | .str, .str _ => true
  | .bool, .bool _ => true
  | .slice t, .arr xs => decodesList t xs
  | .structT _ fields, .obj kvs => decodesFields fields kvs
  | _, _ => false
termination_by _ v => sizeOf v
decreasing_by all_goals simp_wf <;> omega

/-- Elementwise decoding of a JSON array into a slice. -/
def decodesList : GoType → List JValue → Bool
  | _, [] => true
  | t, v :: rest => decodes t v && decodesList t rest
termination_by _ xs => sizeOf xs
decreasing_by all_goals simp_wf <;> omega

/-- Key-by-key decoding of a JSON object into a struct. -/
def decodesFields : List (String × Bool × GoType) → List (String × JValue) → Bool
  | _, [] => true
  | fields, (k, v) :: rest =>
      (match findField fields k with
       | some t => decodes t v
       | none => true) && decodesFields fields rest
termination_by _ kvs => sizeOf kvs
decreasing_by all_goals simp_wf <;> omega

end

/-- The first non-nil error among a handler's return values, mirroring
the loop in `handleMessage` that scans `returnValues` for a value
assignable to the `error` interface whose `Interface()` is non-nil. -/
def firstErr : List RetVal → Option String
  | [] => none
  | .value _ :: rest => firstErr rest
  | .error none :: rest => firstErr rest
  | .error (some m) :: _ => some m

/-- `returnValues[0].Interface()` viewed as a JSON value. A nil error
marshals to `null`; a non-nil error in first position is always
overridden by the rejection branch, so its value is never observed. -/
def retToJson : RetVal → JValue
  | .value v => v
  | .error _ => .null

/-- Outcome classification of `handleMessage`: start from
`("resolution", returnValues[0])` and switch to
`("rejection", err.Error())` at the first non-nil error-like return
value. (A Go handler always returns at least one value here; the empty
list, on which the original would panic in `returnValues[0]`, is mapped
to `null`.) -/
def classify (rets : List RetVal) : String × JValue :=
  let rv0 := match rets.head? with
    | some r => retToJson r
    | none => JValue.null
  match firstErr rets with
  | some m => ("rejection", JValue.str m)
  | none => ("resolution", rv0)

/-- A call message fetched from the control plane. -/
structure CallMessage where
  Id : String
  Function : String
  Input : JValue

/-- The result envelope persisted for a handled call (the
`functionExecutionTime` metadata is wall-clock time and is not
modelled). -/
structure ResultEnv where
  Result : JValue
  ResultType : String

/-- The observable effect of one `handleMessage` call: the envelope
handed to `persistJobResult` (with its job id), if any, and the error
returned to the caller, if any. -/
structure HMOut where
  persisted : Option (String × ResultEnv)
  error : Option String

/-- `service.handleMessage`: look the target function up, decode the
input into the handler's input struct, invoke the handler, classify the
outcome, and persist the result envelope. The `persist` parameter is the
transport's response to `persistJobResult` (an error message, or none on
success). -/
def handleMessage (funcs : List (String × Func))
    (persist : String → ResultEnv → Option String) (msg : CallMessage) : HMOut :=
  match funcs.lookup msg.Function with
  | none => ⟨none, some ("function not found: " ++ msg.Function)⟩
  | some fn =>
    if !decodes fn.Fn.argType msg.Input then
      ⟨none, some "failed to unmarshal input"⟩
    else
      let rets := fn.Fn.run msg.Input
      let rt := classify rets
      let env : ResultEnv := ⟨rt.2, rt.1⟩
      match persist msg.Id env with
      | some e => ⟨some (msg.Id, env), some ("failed to persist job result: " ++ e)⟩
      | none => ⟨some (msg.Id, env), none⟩

/-- The message loop of `service.poll` (lines 261-267): hand each parsed
message to `handleMessage` in order, recording every outcome and
collecting the per-message error strings. -/
def pollMessages (funcs : List (String × Func))
    (persist : String → ResultEnv → Option String) :
    List CallMessage → List HMOut × List String
  | [] => ([], [])
  | m :: rest =>
      let out := handleMessage funcs persist m
      let r := pollMessages funcs persist rest
      (out :: r.1,
       match out.error with
       | some e => e :: r.2
       | none => r.2)

/-- The aggregate error of a poll cycle:
`fmt.Errorf("failed to handle messages: %v", errors)` over the collected
error strings (Go prints a string slice as `[e1 e2 ...]`), or none when
no message failed. -/
def aggregateError (errs : List String) : Option String :=
  if errs.isEmpty then none
  else some ("failed to handle messages: [" ++ String.intercalate " " errs ++ "]")

/-- `strconv.Atoi`: digits with an optional sign; anything else is an
error. -/
def parseDigitsAux : List Char → Nat → Option Nat
  | [], acc => some acc
  | c :: rest, acc =>
      if c.isDigit then parseDigitsAux rest (acc * 10 + (c.toNat - 48)) else none

/-- `strconv.Atoi` on a Go string. -/
def atoi (s : String) : Option Int :=
  match s.data with
  | [] => none
  | '-' :: rest =>
      match rest with
      | [] => none
      | _ => (parseDigitsAux rest 0).map (fun n => -(n : Int))
  | '+' :: rest =>
      match rest with
      | [] => none
      | _ => (parseDigitsAux rest 0).map (fun n => (n : Int))
  | cs => (parseDigitsAux cs 0).map (fun n => (n : Int))

/-- The `Retry-After` loop of `service.poll`: for each header value in
order, overwrite the backoff when the value parses as an integer. -/
def applyRetryAfter (cur : Int) : List String → Int
  | [] => cur
  | v :: rest =>
      applyRetryAfter
        (match atoi v with
         | some i => i
         | none => cur) rest

/-- The last header value that parses as an integer, if any: the value
`applyRetryAfter` ends on. -/
def lastParsed : List String → Option Int
  | [] => none
  | v :: rest =>
      match lastParsed rest with
      | some i => some i
      | none => atoi v

/-- The transport's answer to one poll fetch: a transport failure, or a
response carrying the optional `Retry-After` header values and the
parse outcome of its JSON body. -/
inductive FetchResp where
  | fetchFail (msg : String)
  | ok (retryAfterHeader : Option (List String)) (body : Except String (List CallMessage))

/-- `service.poll`: fetch, apply any `Retry-After` header, parse the
body, and hand each message to the dispatcher, aggregating per-message
errors. Returns the updated backoff, the cycle's error, and the
per-message outcomes. -/
def poll (funcs : List (String × Func)) (retryAfter : Int) (resp : FetchResp)
    (persist : String → ResultEnv → Option String) :
    Int × Option String × List HMOut :=
  match resp with
  | .fetchFail e => (retryAfter, some ("failed to poll calls: " ++ e), [])
  | .ok hdr body =>
    let ra : Int :=
      match hdr with
      | none => retryAfter
      | some vals => applyRetryAfter retryAfter vals
    match body with
    | .error e => (ra, some ("failed to parse poll response: " ++ e), [])
    | .ok msgs =>
      let r := pollMessages funcs persist msgs
      (ra, aggregateError r.2, r.1)

/-- `MaxConsecutivePollFailures` from the source. -/
def MaxConsecutivePollFailures : Nat := 50

/-- `DefaultRetryAfter` from the source. -/
def DefaultRetryAfter : Nat := 10

/-- The mutable state of the polling goroutine: the shared
`service.retryAfter`, the goroutine-local `failureCount`, whether the
context has been cancelled (`Stop` was called), and whether the
goroutine has returned. -/
structure LoopState where
  retryAfter : Int
  failureCount : Nat
  cancelled : Bool
  exited : Bool

/-- The external behaviour one loop iteration observes: the fetch
response and the transport's behaviour for result persistence. -/
structure Cycle where
  resp : FetchResp
  persist : String → ResultEnv → Option String

/-- One iteration of the goroutine in `service.Start`: sleep for the
current backoff (the returned wait, in seconds), exit if the context was
cancelled, otherwise poll; on a poll error increment `failureCount`
(which is initialized to `DefaultRetryAfter` and never reset) and cancel
the service once it exceeds `MaxConsecutivePollFailures`. -/
def loopStep (funcs : List (String × Func)) (st : LoopState) (c : Cycle) :
    LoopState × Option Int :=
  if st.exited then (st, none)
  else if st.cancelled then ({ st with exited := true }, some st.retryAfter)
  else
    let r := poll funcs st.retryAfter c.resp c.persist
    match r.2.1 with
    | none => ({ st with retryAfter := r.1 }, some st.retryAfter)
    | some _ =>
      let fc := st.failureCount + 1
      ({ st with
          retryAfter := r.1,
          failureCount := fc,
          cancelled := if MaxConsecutivePollFailures < fc then true else st.cancelled },
       some st.retryAfter)

/-- The polling goroutine run over a finite trace of cycle behaviours,
returning the final state and the log of waits (one entry per iteration
that actually slept). -/
def runLoop (funcs : List (String × Func)) (st : LoopState) :
    List Cycle → LoopState × List Int
  | [] => (st, [])
  | c :: rest =>
      let s1 := loopStep funcs st c
      let r := runLoop funcs s1.1 rest
      (r.1,
       match s1.2 with
       | some w => w :: r.2
       | none => r.2)

/-- `json.Unmarshal` of the registration response into
`struct{ClusterId string}`: an object (or `null`) is accepted, a missing
field yields the zero value, a non-string `clusterId` or a non-object
body is a parse error. -/
def parseClusterId (body : JValue) : Except String String :=
  match body with
  | .obj kvs =>
      match kvs.lookup "clusterId" with
      | some (.str s) => .ok s
      | some _ => .error "json: cannot unmarshal clusterId"
      | none => .ok ""
  | .null => .ok ""
  | _ => .error "json: cannot unmarshal registration response"

/-- `service.registerMachine`: refuse an empty service, then parse the
`POST /machines` response for the cluster id (nothing else is read from
the response). The `resp` parameter is the transport's answer. -/
def registerMachine (s : Service) (resp : Except String JValue) : Except String Service :=
  if s.Functions.isEmpty then
    .error ("cannot register service " ++ "'" ++ s.Name ++ "'" ++ ": no functions registered")
  else
    match resp with
    | .error e => .error ("failed to register machine: " ++ e)
    | .ok body =>
      match parseClusterId body with
      | .error e => .error ("failed to parse registration response: " ++ e)
      | .ok cid => .ok { s with clusterId := cid }

/-- The goroutine's state right after `Start` launches it:
`s.retryAfter = 0` (line 188) and `failureCount := DefaultRetryAfter`
(line 191, kept verbatim from the source). -/
def initialLoopState : LoopState :=
  { retryAfter := 0, failureCount := DefaultRetryAfter, cancelled := false, exited := false }

/-- `service.Start`: run the registration handshake; on success reset
the backoff to zero and launch the polling goroutine in its initial
state. -/
def Start (s : Service) (resp : Except String JValue) :
    Except String (Service × LoopState) :=
  match registerMachine s resp with
  | .error e => .error ("failed to register machine: " ++ e)
  | .ok s1 => .ok ({ s1 with retryAfter := 0 }, initialLoopState)

/-- The host environment `util.GetMachineID` reads: hostname plus
`runtime.GOARCH`, `runtime.GOOS` and `runtime.Version()`. -/
structure HostEnv where
  hostname : String
  goarch : String
  goos : String
  goversion : String

/-- `util.GetMachineID`: the hex SHA-256 digest of the concatenated host
attributes. `sha256hex` stands for `crypto/sha256` + `encoding/hex`, a
pure function of its input. -/
def GetMachineID (sha256hex : String → String) (env : HostEnv) : String :=
  sha256hex (env.hostname ++ (env.goarch ++ env.goos ++ env.goversion))

/-- The charset `GenerateMachineID` draws from. -/
def charset : String := "abcdefghijklmnopqrstuvwxyz"

/-- `util.GenerateMachineID`: seed a deterministic PRNG with the byte
sum of the hashed host id and draw `length` lowercase letters, prefixed
with `go-`. `randIntn seed i` stands for the i-th value of
`rand.New(rand.NewSource(seed)).Intn(26)`, a pure function of the
seed. -/
def GenerateMachineID (sha256hex : String → String) (randIntn : Int → Nat → Nat)
    (env : HostEnv) (length : Nat) : String :=
  let machineID := GetMachineID sha256hex env
  let seed : Int := machineID.data.foldl (fun a c => a + (c.toNat : Int)) 0
  let sb : List Char :=
    (List.range length).map (fun i => charset.data.getD (randIntn seed i) 'a')
  "go-" ++ String.mk sb

/-- The options accepted by `inferable.New`. -/
structure InferableOptions where
  APIEndpoint : String
  APISecret : String
  MachineID : String

/-- The machine id `inferable.New` stores: the explicit option when
non-empty, otherwise `util.GenerateMachineID(8)` for the current host
environment. -/
def newMachineID (sha256hex : String → String) (randIntn : Int → Nat → Nat)
    (env : HostEnv) (options : InferableOptions) : String :=
  if options.MachineID == "" then GenerateMachineID sha256hex randIntn env 8
  else options.MachineID

mutual

/-- Whether the schema generator would need an external `$ref` somewhere
inside this type when it occurs as (part of) a field: any named struct
type reached through slices or anonymous struct literals. -/
def hasNamedRef : GoType → Bool
  | .int => false
  | .str => false
  | .bool => false
  | .slice t => hasNamedRef t
  | .structT name fields => !(name == "") || hasNamedRefFields fields

/-- Whether any field's type needs an external `$ref`. -/
def hasNamedRefFields : List (String × Bool × GoType) → Bool
  | [] => false
  | (_, _, t) :: rest => hasNamedRef t || hasNamedRefFields rest

end

/-- Whether a string is free of the `$` character (every json field name
in the repository is). -/
def dollarFree (s : String) : Bool := s.data.all (fun c => !(c == '$'))

mutual

/-- A field type the generator inlines without any `$ref`: primitives,
slices of such, and anonymous struct literals over such fields, all
field names `$`-free. -/
def inlineSafe : GoType → Bool
  | .int => true
  | .str => true
  | .bool => true
  | .slice t => inlineSafe t
  | .structT name fields => (name == "") && inlineSafeFields fields

/-- All fields inline-safe with `$`-free json names. -/
def inlineSafeFields : List (String × Bool × GoType) → Bool
  | [] => true
  | (n, _, t) :: rest => dollarFree n && inlineSafe t && inlineSafeFields rest

end

/-- A sequence of later `RegisterFunc` calls on a service, in order,
returning the final service and each call's error. -/
def registerSeq (s : Service) : List Func → Service × List (Option String)
  | [] => (s, [])
  | fn :: rest =>
      let r := RegisterFunc s fn
      let r2 := registerSeq r.1 rest
      (r2.1, r.2 :: r2.2)

/-- The backoff value a fetch response carries: the last `Retry-After`
value that parses as an integer, none when the header is absent, holds
no parseable value, or the fetch failed. -/
def headerLastParsed : FetchResp → Option Int
  | .fetchFail _ => none
  | .ok none _ => none
  | .ok (some vals) _ => lastParsed vals

/-- Whether a fetch response is a top-level fetch failure. -/
def isFetchFail : FetchResp → Bool
  | .fetchFail _ => true
  | _ => false

/-- Example input struct type: `TestInput { A int; B string `+omitempty+` }`. -/
def exInputT : GoType := .structT "TestInput" [("a", false, .int), ("b", true, .str)]

/-- Example echo handler over `exInputT`. -/
def exEcho : Func :=
  { Name := "TestFunc", Description := "Test function", schema := none,
    Fn := { numIn := 1, argType := exInputT, run := fun v => [.value v] } }

/-- Example handler that returns `(nil, error)` with a non-nil error. -/
def exErrFn : Func :=
  { Name := "FailFunc", Description := "", schema := none,
    Fn := { numIn := 1, argType := exInputT,
            run := fun _ => [.value .null, .error (some "boom")] } }

/-- Example handler whose input nests a distinct named struct through a
slice: `TestInput2 { A int; C []F }` with `F { G int }`. -/
def exRefFields : List (String × Bool × GoType) :=
  [("a", false, .int), ("c", false, .slice (.structT "F" [("g", false, .int)]))]

/-- Example function over the `$ref`-producing input type. -/
def exRefFn : Func :=
  { Name := "TestFunc2", Description := "", schema := none,
    Fn := { numIn := 1, argType := .structT "TestInput2" exRefFields,
            run := fun v => [.value v] } }

/-- An empty example service. -/
def exService : Service :=
  { Name := "TestService", Functions := [], clusterId := "", retryAfter := 0 }

/-- An example registry holding the echo and failing handlers. -/
def exFuncs : List (String × Func) := [("TestFunc", exEcho), ("FailFunc", exErrFn)]

/-- The example service with `exFuncs` registered. -/
def exRegService : Service := { exService with Functions := exFuncs }

/-- A transport whose result persistence always succeeds. -/
def exPersist : String → ResultEnv → Option String := fun _ _ => none

/-- A successful fetch whose single message targets an unregistered
function: the cycle fails per-message, not at the fetch. -/
def exBadCycle : Cycle :=
  { resp := .ok none (.ok [{ Id := "1", Function := "missing", Input := .null }]),
    persist := exPersist }

/-- A successful fetch with an empty batch: a clean cycle. -/
def exGoodCycle : Cycle := { resp := .ok none (.ok []), persist := exPersist }

/-- A cycle whose response carries `Retry-After: 5`. -/
def exHdrCycle : Cycle := { resp := .ok (some ["5"]) (.ok []), persist := exPersist }

/-- 41 cycles with per-message failures (every fetch succeeds), then a
clean cycle. -/
def exC3Trace : List Cycle := List.replicate 41 exBadCycle ++ [exGoodCycle]

/-- A handshake response whose body carries a cluster id and a
server-suggested retry interval of 7 seconds. -/
def exHsResp : Except String JValue :=
  .ok (.obj [("clusterId", .str "cluster-1"), ("retryAfter", .num 7)])

/-- A call message that decodes into `exInputT` and targets the failing
handler. -/
def exFailMsg : CallMessage := { Id := "9", Function := "FailFunc", Input := .obj [] }

/-- Example host environment. -/
def exEnv : HostEnv :=
  { hostname := "host-a", goarch := "amd64", goos := "linux", goversion := "go1.22" }

/-- Options with no explicit machine id (first instance). -/
def exOptA : InferableOptions :=
  { APIEndpoint := "https://api.one", APISecret := "s1", MachineID := "" }

/-- Options with no explicit machine id (second instance, different
endpoint and secret). -/
def exOptB : InferableOptions :=
  { APIEndpoint := "https://api.two", APISecret := "s2", MachineID := "" }

/-- Options carrying the explicit machine id `m1`. -/
def exOptC : InferableOptions :=
  { APIEndpoint := "https://api.one", APISecret := "s1", MachineID := "m1" }

/-- Options carrying the explicit machine id `m2`. -/
def exOptD : InferableOptions :=
  { APIEndpoint := "https://api.one", APISecret := "s1", MachineID := "m2" }

/-- A stand-in hash function for witnesses (the claims hold for every
hash). -/
def exSha : String → String := fun s => s

/-- A stand-in PRNG draw sequence for witnesses. -/
def exRand : Int → Nat → Nat := fun _ _ => 0

/-- Shape analysis of one `RegisterFunc` call: either it errors and
returns the service untouched (with the duplicate guard recorded when it
fired), or it succeeds and conses the stored function onto the map. -/
theorem RegisterFunc_cases (s : Service) (fn : Func) :
    ((RegisterFunc s fn).1 = s ∧ (RegisterFunc s fn).2.isSome = true)
    ∨ ((RegisterFunc s fn).2 = none
        ∧ s.Functions.lookup fn.Name = none
        ∧ ∃ g, (RegisterFunc s fn).1
            = { s with Functions := (fn.Name, g) :: s.Functions }
          ∧ g.Name = fn.Name ∧ g.Description = fn.Description ∧ g.Fn = fn.Fn) := by
  unfold RegisterFunc
  split
  · exact Or.inl ⟨rfl, rfl⟩
  next hdup =>
    split
    · exact Or.inl ⟨rfl, rfl⟩
    split
    · exact Or.inl ⟨rfl, rfl⟩
    simp only [reflectSchema]
    split
    · exact Or.inl ⟨rfl, rfl⟩
    · split
      · exact Or.inl ⟨rfl, rfl⟩
      · refine Or.inr ⟨rfl, ?_, ?_⟩
        · cases h : s.Functions.lookup fn.Name with
          | none => rfl
          | some g => rw [h] at hdup; simp at hdup
        · exact ⟨_, rfl, rfl, rfl, rfl⟩

/-- A successful registration leaves every other name's entry alone, and
a registration of an already-present name fails without touching the
service. -/
theorem RegisterFunc_lookup_preserved (s : Service) (fn : Func) (name : String)
    (g : Func) (h : s.Functions.lookup name = some g) :
    (RegisterFunc s fn).1.Functions.lookup name = some g
    ∧ (fn.Name = name → (RegisterFunc s fn).2.isSome = true) := by
  rcases RegisterFunc_cases s fn with ⟨h1, h2⟩ | ⟨_, hfree, g2, h2, _⟩
  · exact ⟨by rw [h1]; exact h, fun _ => h2⟩
  · constructor
    · rw [h2]
      have hne : name ≠ fn.Name := by
        intro he; rw [he, hfree] at h; cases h
      have hb : (name == fn.Name) = false := beq_eq_false_iff_ne.mpr hne
      simpa [List.lookup, hb] using h
    · intro he; rw [← he] at h; rw [hfree] at h; cases h

/-- C2. Once a function name is registered on a service, every later
`RegisterFunc` call with that name fails (whatever its other attributes)
and the stored registration survives any sequence of later calls
unchanged. -/
theorem RegisterFunc_duplicate_always_fails
    (s : Service) (name : String) (g : Func) (fns : List Func)
    (h : s.Functions.lookup name = some g) :
    (registerSeq s fns).1.Functions.lookup name = some g
    ∧ ∀ p ∈ fns.zip (registerSeq s fns).2, p.1.Name = name → p.2.isSome = true := by
  induction fns generalizing s with
  | nil => exact ⟨h, by simp⟩
  | cons fn rest ih =>
    have step := RegisterFunc_lookup_preserved s fn name g h
    have tail := ih (RegisterFunc s fn).1 step.1
    have hseq : registerSeq s (fn :: rest)
        = ((registerSeq (RegisterFunc s fn).1 rest).1,
           (RegisterFunc s fn).2 :: (registerSeq (RegisterFunc s fn).1 rest).2) := rfl
    rw [hseq]
    refine ⟨tail.1, ?_⟩
    intro p hp hname
    rw [List.zip_cons_cons, List.mem_cons] at hp
    rcases hp with hp | hp
    · subst hp; exact step.2 hname
    · exact tail.2 p hp hname

/-- Witness for C2: with `TestFunc` registered, re-registering the same
name (different description) fails and the stored entry survives. -/
theorem RegisterFunc_duplicate_always_fails_witness :
    (registerSeq exRegService [exRefFn, { exEcho with Description := "other" }]).1.Functions.lookup "TestFunc" = some exEcho
    ∧ ∀ p ∈ [exRefFn, { exEcho with Description := "other" }].zip
          (registerSeq exRegService [exRefFn, { exEcho with Description := "other" }]).2,
        p.1.Name = "TestFunc" → p.2.isSome = true :=
  RegisterFunc_duplicate_always_fails exRegService "TestFunc" exEcho
    [exRefFn, { exEcho with Description := "other" }] rfl

/-- C10. `RegisterFunc` is atomic: every error path leaves the map
exactly as it was, and an entry is added (consed onto the map, keeping
the handler and metadata) only when every validation passed. -/
theorem RegisterFunc_atomic (s : Service) (fn : Func) :
    ((RegisterFunc s fn).2.isSome = true → (RegisterFunc s fn).1 = s)
    ∧ ((RegisterFunc s fn).2 = none → ∃ g,
        (RegisterFunc s fn).1.Functions = (fn.Name, g) :: s.Functions
        ∧ g.Name = fn.Name ∧ g.Fn = fn.Fn) := by
  rcases RegisterFunc_cases s fn with ⟨h1, h2⟩ | ⟨h1, _, g, h2, hg1, _, hg3⟩
  · refine ⟨fun _ => h1, fun hc => ?_⟩
    rw [hc] at h2; cases h2
  · refine ⟨fun hc => ?_, fun _ => ⟨g, by rw [h2], hg1, hg3⟩⟩
    rw [h1] at hc; cases hc

set_option maxRecDepth 8000 in
/-- Witness for C10: a duplicate registration leaves the example service
untouched; a fresh registration conses its entry on. -/
theorem RegisterFunc_atomic_witness :
    (RegisterFunc exRegService exEcho).1 = exRegService
    ∧ ∃ g, (RegisterFunc exService exEcho).1.Functions = (exEcho.Name, g) :: exService.Functions
        ∧ g.Name = exEcho.Name ∧ g.Fn = exEcho.Fn :=
  ⟨(RegisterFunc_atomic exRegService exEcho).1 rfl,
   (RegisterFunc_atomic exService exEcho).2 rfl⟩

/-- C9. Machine-id determinism: two instances built with no explicit
machine id in the same host environment derive the same id (whatever
their other options), and two instances built with distinct explicit
ids keep exactly those ids and never collide. Quantified over the hash
and PRNG functions, both pure; the real `crypto/sha256` and seeded
`math/rand` are particular instances. -/
theorem machine_id_stability (sha256hex : String → String) (randIntn : Int → Nat → Nat)
    (env : HostEnv) (o1 o2 : InferableOptions) :
    (o1.MachineID = "" → o2.MachineID = "" →
       newMachineID sha256hex randIntn env o1 = newMachineID sha256hex randIntn env o2)
    ∧ (o1.MachineID ≠ "" → o2.MachineID ≠ "" → o1.MachineID ≠ o2.MachineID →
       newMachineID sha256hex randIntn env o1 ≠ newMachineID sha256hex randIntn env o2) := by
  constructor
  · intro h1 h2
    rw [newMachineID, newMachineID, if_pos (by simp [h1]), if_pos (by simp [h2])]
  · intro h1 h2 hne
    rw [newMachineID, newMachineID, if_neg (by simpa using h1), if_neg (by simpa using h2)]
    exact hne

/-- Witness for C9 at a concrete environment: equal derived ids for two
id-less instances with different endpoints, distinct ids kept distinct. -/
theorem machine_id_stability_witness :
    newMachineID exSha exRand exEnv exOptA = newMachineID exSha exRand exEnv exOptB
    ∧ newMachineID exSha exRand exEnv exOptC ≠ newMachineID exSha exRand exEnv exOptD :=
  ⟨(machine_id_stability exSha exRand exEnv exOptA exOptB).1 rfl rfl,
   (machine_id_stability exSha exRand exEnv exOptC exOptD).2
     (by decide) (by decide) (by decide)⟩

/-- The outcomes a poll cycle records are exactly the independent
dispatches of each message, in order. -/
theorem pollMessages_fst (funcs : List (String × Func))
    (persist : String → ResultEnv → Option String) (msgs : List CallMessage) :
    (pollMessages funcs persist msgs).1 = msgs.map (handleMessage funcs persist) := by
  induction msgs with
  | nil => rfl
  | cons m rest ih =>
    simp only [pollMessages, List.map_cons]
    rw [ih]

/-- The errors a poll cycle collects are exactly the per-message errors,
in order. -/
theorem pollMessages_snd (funcs : List (String × Func))
    (persist : String → ResultEnv → Option String) (msgs : List CallMessage) :
    (pollMessages funcs persist msgs).2
      = msgs.filterMap (fun m => (handleMessage funcs persist m).error) := by
  induction msgs with
  | nil => rfl
  | cons m rest ih =>
    simp only [pollMessages, List.filterMap_cons]
    rw [ih]
    cases (handleMessage funcs persist m).error <;> rfl

/-- C5. Batch isolation: in a successfully fetched and parsed batch,
every message is dispatched independently and in order (the outcome list
is the pointwise map of `handleMessage`, so no message's failure
prevents another's handling), and the cycle's error is the aggregate of
exactly the per-message errors. -/
theorem poll_batch_isolation (funcs : List (String × Func))
    (persist : String → ResultEnv → Option String) (ra : Int) (msgs : List CallMessage) :
    (poll funcs ra (.ok none (.ok msgs)) persist).2.2
        = msgs.map (handleMessage funcs persist)
    ∧ (poll funcs ra (.ok none (.ok msgs)) persist).2.1
        = aggregateError (msgs.filterMap (fun m => (handleMessage funcs persist m).error))
    ∧ ((poll funcs ra (.ok none (.ok msgs)) persist).2.2).length = msgs.length := by
  refine ⟨?_, ?_, ?_⟩
  · simpa only [poll] using pollMessages_fst funcs persist msgs
  · simp only [poll]
    rw [pollMessages_snd]
  · simp only [poll]
    rw [pollMessages_fst]
    exact List.length_map msgs _

/-- The backoff a poll cycle ends on: the last parseable `Retry-After`
value when one arrived, the entering backoff otherwise. -/
theorem applyRetryAfter_eq (vals : List String) (cur : Int) :
    applyRetryAfter cur vals = (lastParsed vals).getD cur := by
  induction vals generalizing cur with
  | nil => rfl
  | cons v rest ih =>
    simp only [applyRetryAfter, lastParsed]
    rw [ih]
    cases h : lastParsed rest with
    | some i => rfl
    | none => cases h2 : atoi v <;> rfl

/-- The first component of `poll` is the backoff after header
processing, whatever the body parse and message handling did. -/
theorem poll_fst (funcs : List (String × Func)) (ra : Int) (resp : FetchResp)
    (persist : String → ResultEnv → Option String) :
    (poll funcs ra resp persist).1 = (headerLastParsed resp).getD ra := by
  cases resp with
  | fetchFail e => rfl
  | ok hdr body =>
    cases hdr with
    | none => cases body <;> rfl
    | some vals =>
      cases body <;> simp only [poll, headerLastParsed] <;> rw [applyRetryAfter_eq]

/-- An iteration of a live loop (not exited, not cancelled) always
sleeps for the entering backoff and ends with the backoff the cycle's
header dictates (entering value when no parseable header arrived). -/
theorem loopStep_active (funcs : List (String × Func)) (st : LoopState) (c : Cycle)
    (he : st.exited = false) (hc : st.cancelled = false) :
    (loopStep funcs st c).1.retryAfter = (headerLastParsed c.resp).getD st.retryAfter
    ∧ (loopStep funcs st c).2 = some st.retryAfter := by
  simp only [loopStep, he, hc, Bool.false_eq_true, if_false]
  cases hm : (poll funcs st.retryAfter c.resp c.persist).2.1 with
  | none => exact ⟨by rw [← poll_fst funcs st.retryAfter c.resp c.persist], rfl⟩
  | some e => exact ⟨by rw [← poll_fst funcs st.retryAfter c.resp c.persist], rfl⟩

/-- Whatever branch an iteration takes, it either records no wait
(already exited) or sleeps exactly the entering backoff. -/
theorem loopStep_wait (funcs : List (String × Func)) (st : LoopState) (c : Cycle) :
    (loopStep funcs st c).2 = none ∨ (loopStep funcs st c).2 = some st.retryAfter := by
  by_cases he : st.exited = true
  · left; simp [loopStep, he]
  · by_cases hc : st.cancelled = true
    · right; simp [loopStep, he, hc]
    · right
      exact (loopStep_active funcs st c (by simpa using he) (by simpa using hc)).2

/-- An iteration whose cycle carries no parseable `Retry-After` leaves
the backoff unchanged. -/
theorem loopStep_retryAfter_noheader (funcs : List (String × Func)) (st : LoopState)
    (c : Cycle) (h : headerLastParsed c.resp = none) :
    (loopStep funcs st c).1.retryAfter = st.retryAfter := by
  by_cases he : st.exited = true
  · simp [loopStep, he]
  · by_cases hc : st.cancelled = true
    · simp [loopStep, he, hc]
    · rw [(loopStep_active funcs st c (by simpa using he) (by simpa using hc)).1, h]
      rfl

/-- Over any trace without a parseable `Retry-After`, the loop's backoff
never changes and every recorded wait equals it. -/
theorem runLoop_retryAfter_noheader (funcs : List (String × Func)) (trace : List Cycle)
    (st : LoopState) (h : ∀ c ∈ trace, headerLastParsed c.resp = none) :
    (runLoop funcs st trace).1.retryAfter = st.retryAfter
    ∧ ∀ w ∈ (runLoop funcs st trace).2, w = st.retryAfter := by
  induction trace generalizing st with
  | nil => exact ⟨rfl, by simp [runLoop]⟩
  | cons c rest ih =>
    have hc : headerLastParsed c.resp = none := h c (List.mem_cons_self c rest)
    have hra : (loopStep funcs st c).1.retryAfter = st.retryAfter :=
      loopStep_retryAfter_noheader funcs st c hc
    have tail := ih (loopStep funcs st c).1 (fun c2 hc2 => h c2 (List.mem_cons_of_mem c hc2))
    have hrun : runLoop funcs st (c :: rest)
        = ((runLoop funcs (loopStep funcs st c).1 rest).1,
           match (loopStep funcs st c).2 with
           | some w => w :: (runLoop funcs (loopStep funcs st c).1 rest).2
           | none => (runLoop funcs (loopStep funcs st c).1 rest).2) := rfl
    rw [hrun]
    refine ⟨by rw [tail.1, hra], ?_⟩
    intro w hw
    rcases loopStep_wait funcs st c with hv | hv
    · rw [hv] at hw
      exact (tail.2 w hw).trans hra
    · rw [hv] at hw
      rcases List.mem_cons.mp hw with rfl | hw
      · rfl
      · exact (tail.2 w hw).trans hra

/-- C8. Server-driven backoff: a live iteration whose response carries a
`Retry-After` value parsing to `k` ends with backoff `k`; one without
such a value keeps the backoff; each iteration waits exactly the
entering backoff before its fetch; the new backoff is never anything
other than the old one or a header value; and over any stretch of
cycles without the header the backoff and all waits stay constant. -/
theorem retryAfter_server_driven (funcs : List (String × Func)) (st : LoopState)
    (c : Cycle) (trace : List Cycle) (k : Int)
    (he : st.exited = false) (hc : st.cancelled = false) :
    (headerLastParsed c.resp = some k → (loopStep funcs st c).1.retryAfter = k)
    ∧ (headerLastParsed c.resp = none →
        (loopStep funcs st c).1.retryAfter = st.retryAfter)
    ∧ (loopStep funcs st c).2 = some st.retryAfter
    ∧ ((loopStep funcs st c).1.retryAfter = st.retryAfter
        ∨ headerLastParsed c.resp = some ((loopStep funcs st c).1.retryAfter))
    ∧ ((∀ c2 ∈ trace, headerLastParsed c2.resp = none) →
        (runLoop funcs st trace).1.retryAfter = st.retryAfter
        ∧ ∀ w ∈ (runLoop funcs st trace).2, w = st.retryAfter) := by
  have hact := loopStep_active funcs st c he hc
  refine ⟨?_, ?_, hact.2, ?_, ?_⟩
  · intro hk; rw [hact.1, hk]; rfl
  · intro hk; exact loopStep_retryAfter_noheader funcs st c hk
  · cases hk : headerLastParsed c.resp with
    | none => exact Or.inl (loopStep_retryAfter_noheader funcs st c hk)
    | some i => right; rw [hact.1, hk]; rfl
  · exact runLoop_retryAfter_noheader funcs trace st

/-- Witness for C8: the example header cycle sets the backoff to 5, and
a header-less trace keeps the initial backoff 0. -/
theorem retryAfter_server_driven_witness :
    (loopStep exFuncs initialLoopState exHdrCycle).1.retryAfter = 5
    ∧ ((runLoop exFuncs initialLoopState [exGoodCycle]).1.retryAfter
        = initialLoopState.retryAfter) :=
  ⟨(retryAfter_server_driven exFuncs initialLoopState exHdrCycle [] 5 rfl rfl).1 (by decide),
   ((retryAfter_server_driven exFuncs initialLoopState exHdrCycle [exGoodCycle] 5 rfl rfl).2.2.2.2
     (by intro c2 hc2; simp at hc2; rw [hc2]; rfl)).1⟩

set_option maxRecDepth 40000 in
/-- C3's failing run, evaluated: with every fetch succeeding and 41
cycles failing only per-message (unregistered function), the loop
self-stops — `failureCount` starts at `DefaultRetryAfter = 10`, counts
every failed cycle and never resets, so 41 non-fetch failures push it
past 50 and the service exits, where the claim allows self-stop only
past 50 consecutive top-level fetch failures. -/
theorem poll_loop_self_stops_without_fetch_failures :
    (runLoop exFuncs initialLoopState exC3Trace).1.exited = true
    ∧ exC3Trace.all (fun c => !isFetchFail c.resp) = true := by
  constructor
  · rfl
  · rfl

/-- C4 as stated is false at a concrete input: a successful `Start`
whose handshake response body suggests a retry interval of 7 still
begins polling with a zero backoff — the first recorded wait is 0, not
7. -/
theorem start_initial_backoff_counterexample :
    Start exRegService exHsResp
      = .ok ({ exRegService with clusterId := "cluster-1", retryAfter := 0 },
             initialLoopState)
    ∧ (runLoop exFuncs initialLoopState [exGoodCycle]).2 = [0]
    ∧ (0 : Int) ≠ 7 := by
  refine ⟨rfl, rfl, by decide⟩

/-- C4 amended. Every successful `Start` resets the service backoff to
zero and launches the loop in `initialLoopState`; the wait before the
loop's first fetch is therefore 0 (the handshake response contributes
only the cluster id, never a retry interval). -/
theorem start_initial_backoff_zero (s : Service) (resp : Except String JValue)
    (s1 : Service) (st : LoopState) (h : Start s resp = .ok (s1, st)) :
    s1.retryAfter = 0 ∧ st = initialLoopState ∧ st.retryAfter = 0
    ∧ ∀ funcs c rest, ((runLoop funcs st (c :: rest)).2).head? = some 0 := by
  have hst : s1.retryAfter = 0 ∧ st = initialLoopState := by
    unfold Start at h
    cases hr : registerMachine s resp with
    | error e => rw [hr] at h; cases h
    | ok s2 =>
      rw [hr] at h
      injection h with h2
      injection h2 with ha hb
      exact ⟨by rw [← ha], hb.symm⟩
  refine ⟨hst.1, hst.2, by rw [hst.2]; rfl, ?_⟩
  intro funcs c rest
  have hw : (loopStep funcs st c).2 = some st.retryAfter :=
    (loopStep_active funcs st c (by rw [hst.2]; rfl) (by rw [hst.2]; rfl)).2
  have hrun : runLoop funcs st (c :: rest)
      = ((runLoop funcs (loopStep funcs st c).1 rest).1,
         match (loopStep funcs st c).2 with
         | some w => w :: (runLoop funcs (loopStep funcs st c).1 rest).2
         | none => (runLoop funcs (loopStep funcs st c).1 rest).2) := rfl
  rw [hrun, hw]
  have : st.retryAfter = 0 := by rw [hst.2]; rfl
  rw [this]
  rfl

/-- Witness for the amended C4 at the concrete handshake. -/
theorem start_initial_backoff_zero_witness :
    ({ exRegService with clusterId := "cluster-1", retryAfter := 0 } : Service).retryAfter = 0
    ∧ (runLoop exFuncs initialLoopState [exGoodCycle]).2.head? = some 0 := by
  have h := start_initial_backoff_zero exRegService exHsResp
    ({ exRegService with clusterId := "cluster-1", retryAfter := 0 }) initialLoopState rfl
  exact ⟨h.1, h.2.2.2 exFuncs exGoodCycle []⟩

/-- When the target function exists and the input decodes, the envelope
handed to the transport always carries the classification of the
handler's return values, whether or not the persist call itself
succeeds. -/
theorem handleMessage_persisted (funcs : List (String × Func))
    (persist : String → ResultEnv → Option String) (msg : CallMessage) (fn : Func)
    (hfn : funcs.lookup msg.Function = some fn)
    (hdec : decodes fn.Fn.argType msg.Input = true) :
    (handleMessage funcs persist msg).persisted
      = some (msg.Id, { Result := (classify (fn.Fn.run msg.Input)).2,
                        ResultType := (classify (fn.Fn.run msg.Input)).1 }) := by
  unfold handleMessage
  rw [hfn]
  simp only [hdec, Bool.not_true, Bool.false_eq_true, if_false]
  cases persist msg.Id _ <;> rfl

/-- C1. Error classification of dispatch: for a registered handler and a
decodable call input, a handler of either supported shape produces a
resolution envelope carrying its first return value when no non-nil
error is returned, and a rejection envelope carrying the error's
description when the trailing error is non-nil. -/
theorem handleMessage_error_classification (funcs : List (String × Func))
    (persist : String → ResultEnv → Option String) (msg : CallMessage) (fn : Func)
    (hfn : funcs.lookup msg.Function = some fn)
    (hdec : decodes fn.Fn.argType msg.Input = true) :
    (∀ v, fn.Fn.run msg.Input = [RetVal.value v] →
       (handleMessage funcs persist msg).persisted
         = some (msg.Id, { Result := v, ResultType := "resolution" }))
    ∧ (∀ v, fn.Fn.run msg.Input = [RetVal.value v, RetVal.error none] →
       (handleMessage funcs persist msg).persisted
         = some (msg.Id, { Result := v, ResultType := "resolution" }))
    ∧ (∀ v m, fn.Fn.run msg.Input = [RetVal.value v, RetVal.error (some m)] →
       (handleMessage funcs persist msg).persisted
         = some (msg.Id, { Result := JValue.str m, ResultType := "rejection" })) := by
  have hp := handleMessage_persisted funcs persist msg fn hfn hdec
  refine ⟨?_, ?_, ?_⟩
  · intro v hrun; rw [hp, hrun]; rfl
  · intro v hrun; rw [hp, hrun]; rfl
  · intro v m hrun; rw [hp, hrun]; rfl

/-- Witness for C1: the failing example handler yields a rejection
envelope carrying its error text. -/
theorem handleMessage_error_classification_witness :
    (handleMessage exFuncs exPersist exFailMsg).persisted
      = some ("9", { Result := JValue.str "boom", ResultType := "rejection" }) :=
  (handleMessage_error_classification exFuncs exPersist exFailMsg exErrFn rfl
    (by simp [exErrFn, exFailMsg, exInputT, decodes, decodesFields])).2.2
    JValue.null "boom" rfl

/-- The `$ref` needle contains a dollar sign. -/
theorem dollar_mem_refNeedle : '$' ∈ refNeedle := by decide

/-- A haystack containing the `$ref` needle contains a dollar sign. -/
theorem dollar_mem_of_contains {hay : List Char}
    (h : stringContains hay refNeedle = true) : '$' ∈ hay := by
  have h2 : decide (refNeedle <:+: hay) = true := h
  exact (of_decide_eq_true h2).subset dollar_mem_refNeedle

/-- A character list free of dollar signs cannot contain the needle. -/
theorem contains_eq_false_of_no_dollar {hay : List Char} (h : '$' ∉ hay) :
    stringContains hay refNeedle = false := by
  cases hc : stringContains hay refNeedle with
  | false => rfl
  | true => exact absurd (dollar_mem_of_contains hc) h

/-- Membership in a disjunction: characters of an escaped string come
from the string itself or are the escape backslash. -/
theorem mem_escFold {c : Char} :
    ∀ l : List Char,
      c ∈ l.foldr (fun d acc => jsonEscapeChar d ++ acc) [] → c ∈ l ∨ c = '\\'
  | [], h => by simp at h
  | d :: rest, h => by
      simp only [List.foldr_cons, List.mem_append] at h
      rcases h with h | h
      · unfold jsonEscapeChar at h
        by_cases hd : (d == '"' || d == '\\') = true
        · rw [if_pos hd] at h
          rcases List.mem_cons.mp h with rfl | h2
          · exact Or.inr rfl
          · rcases List.mem_cons.mp h2 with rfl | h3
            · exact Or.inl (List.mem_cons_self _ _)
            · simp at h3
        · rw [if_neg hd] at h
          rcases List.mem_cons.mp h with rfl | h2
          · exact Or.inl (List.mem_cons_self _ _)
          · simp at h2
      · rcases mem_escFold rest h with h2 | h2
        · exact Or.inl (List.mem_cons_of_mem d h2)
        · exact Or.inr h2

/-- No dollar sign in the escape of a `$`-free string. -/
theorem dollar_not_mem_jsonEscape {s : String} (h : dollarFree s = true) :
    '$' ∉ jsonEscape s := by
  intro hm
  rcases mem_escFold s.data hm with h2 | h2
  · rw [dollarFree, List.all_eq_true] at h
    have h3 := h '$' h2
    simp at h3
  · exact absurd h2 (by decide)

/-- No dollar sign in the serialization of a `$`-free string literal. -/
theorem dollar_not_mem_jsonStr {s : String} (h : dollarFree s = true) :
    '$' ∉ jsonStr s := by
  intro hm
  simp only [jsonStr, List.cons_append, List.mem_cons, List.mem_append,
    List.mem_singleton] at hm
  rcases hm with h2 | h2 | h2
  · exact absurd h2 (by decide)
  · exact dollar_not_mem_jsonEscape h h2
  · exact absurd h2 (by decide)

/-- No dollar sign in the `required` serialization of `$`-free names. -/
theorem dollar_not_mem_marshalRequired :
    ∀ l : List String, (∀ n ∈ l, dollarFree n = true) → '$' ∉ marshalRequired l
  | [], _ => by simp [marshalRequired]
  | [n], h => by
      simp only [marshalRequired]
      exact dollar_not_mem_jsonStr (h n (List.mem_singleton_self n))
  | n :: m :: rest, h => by
      intro hm
      simp only [marshalRequired, List.mem_append, List.mem_cons] at hm
      rcases hm with h2 | h2 | h2
      · exact dollar_not_mem_jsonStr (h n (List.mem_cons_self _ _)) h2
      · exact absurd h2 (by decide)
      · exact dollar_not_mem_marshalRequired (m :: rest)
          (fun x hx => h x (List.mem_cons_of_mem n hx)) h2

/-- No dollar sign in the properties serialization when no property name
or sub-schema carries one. -/
theorem dollar_not_mem_marshalProps :
    ∀ props : List (String × JSchema),
      (∀ p ∈ props, dollarFree p.1 = true ∧ '$' ∉ marshalSchema p.2) →
      '$' ∉ marshalProps props
  | [], _ => by simp [marshalProps]
  | [(n, s)], h => by
      intro hm
      simp only [marshalProps, List.mem_append, List.mem_cons] at hm
      rcases hm with h2 | h2 | h2
      · exact dollar_not_mem_jsonStr (h (n, s) (List.mem_singleton_self _)).1 h2
      · exact absurd h2 (by decide)
      · exact (h (n, s) (List.mem_singleton_self _)).2 h2
  | (n, s) :: p2 :: rest, h => by
      intro hm
      simp +decide only [marshalProps, List.mem_append, List.mem_cons,
        false_or, or_false] at hm
      rcases hm with (h2 | h2) | h2
      · exact dollar_not_mem_jsonStr (h (n, s) (List.mem_cons_self _ _)).1 h2
      · exact (h (n, s) (List.mem_cons_self _ _)).2 h2
      · exact dollar_not_mem_marshalProps (p2 :: rest)
          (fun x hx => h x (List.mem_cons_of_mem _ hx)) h2

/-- No dollar sign in the marshalled object schema when properties and
required names carry none. -/
theorem dollar_not_mem_marshalObj (props : List (String × JSchema))
    (req : List String) (ap : Bool)
    (hp : '$' ∉ marshalProps props)
    (hr : ∀ n ∈ req, dollarFree n = true) :
    '$' ∉ marshalSchema (JSchema.obj props req ap) := by
  intro hm
  have hreq : '$' ∉ marshalRequired req := dollar_not_mem_marshalRequired req hr
  cases ap <;> cases hre : req.isEmpty <;>
    simp +decide only [marshalSchema, hre, lbrace, rbrace, Char.ofNat, List.mem_append,
      List.mem_cons, List.not_mem_nil, if_true, if_false, or_false, false_or] at hm <;>
    first
      | exact hp hm
      | exact hreq hm
      | (rcases hm with hm | hm
         · exact hp hm
         · exact hreq hm)

/-- Fields accepted by `inlineSafeFields` have `$`-free names and
inline-safe types. -/
theorem inlineSafeFields_mem :
    ∀ fields : List (String × Bool × GoType), inlineSafeFields fields = true →
      ∀ f ∈ fields, dollarFree f.1 = true ∧ inlineSafe f.2.2 = true
  | [], _, f, hf => by simp at hf
  | (n, o, t) :: rest, h, f, hf => by
      have h' : dollarFree n = true ∧ inlineSafe t = true ∧ inlineSafeFields rest = true := by
        simpa [inlineSafeFields, Bool.and_eq_true, and_assoc] using h
      rcases List.mem_cons.mp hf with rfl | hf2
      · exact ⟨h'.1, h'.2.1⟩
      · exact inlineSafeFields_mem rest h'.2.2 f hf2

/-- Names of the generated `required` list are `$`-free for inline-safe
fields. -/
theorem requiredOf_dollarFree (fields : List (String × Bool × GoType))
    (h : inlineSafeFields fields = true) :
    ∀ n ∈ requiredOf fields, dollarFree n = true := by
  intro n hn
  rw [requiredOf] at hn
  rcases List.mem_map.mp hn with ⟨f, hf, rfl⟩
  exact (inlineSafeFields_mem fields h f (List.mem_of_mem_filter hf)).1

mutual

/-- An inline-safe type's generated schema marshals to `$`-free text. -/
theorem dollar_not_mem_reflectType :
    ∀ t : GoType, inlineSafe t = true → '$' ∉ marshalSchema (reflectType t)
  | .int, _ => by decide
  | .str, _ => by decide
  | .bool, _ => by decide
  | .slice t, h => by
      intro hm
      have ih := dollar_not_mem_reflectType t (by simpa [inlineSafe] using h)
      simp +decide only [reflectType, marshalSchema, List.mem_cons, List.mem_append,
        false_or, or_false] at hm
      exact ih hm
  | .structT name fields, h => by
      have h' : (name == "") = true ∧ inlineSafeFields fields = true := by
        simpa [inlineSafe, Bool.and_eq_true] using h
      intro hm
      rw [reflectType, if_pos h'.1] at hm
      exact dollar_not_mem_marshalObj _ _ _
        (dollar_not_mem_marshalProps _ (dollar_not_mem_reflectFields fields h'.2))
        (requiredOf_dollarFree fields h'.2) hm
termination_by t => sizeOf t
decreasing_by all_goals simp_wf <;> omega

/-- Properties generated from inline-safe fields have `$`-free names and
`$`-free sub-schemas. -/
theorem dollar_not_mem_reflectFields :
    ∀ fields : List (String × Bool × GoType), inlineSafeFields fields = true →
      ∀ p ∈ reflectFields fields, dollarFree p.1 = true ∧ '$' ∉ marshalSchema p.2
  | [], _, p, hp => by simp [reflectFields] at hp
  | (n, o, t) :: rest, h, p, hp => by
      have h' : dollarFree n = true ∧ inlineSafe t = true ∧ inlineSafeFields rest = true := by
        simpa [inlineSafeFields, Bool.and_eq_true, and_assoc] using h
      simp only [reflectFields] at hp
      rcases List.mem_cons.mp hp with rfl | hp2
      · exact ⟨h'.1, dollar_not_mem_reflectType t h'.2.1⟩
      · exact dollar_not_mem_reflectFields rest h'.2.2 p hp2
termination_by fields => sizeOf fields
decreasing_by all_goals simp_wf <;> omega

end

/-- The marshalled object schema stays `$`-free when built from
inline-safe fields. -/
theorem noDollar_topObj (fields : List (String × Bool × GoType))
    (h : inlineSafeFields fields = true) :
    '$' ∉ marshalSchema (JSchema.obj (reflectFields fields) (requiredOf fields) true) :=
  dollar_not_mem_marshalObj _ _ _
    (dollar_not_mem_marshalProps _ (dollar_not_mem_reflectFields fields h))
    (requiredOf_dollarFree fields h)

/-- The serialization of a `$ref` node contains the needle. -/
theorem needle_infix_ref (name : String) :
    refNeedle <:+: marshalSchema (JSchema.ref name) := by
  refine ⟨[lbrace], ['/'] ++ jsonEscape name ++ '"' :: [rbrace], ?_⟩
  simp only [marshalSchema]
  simp [refNeedle, List.append_assoc]

/-- The needle survives wrapping a schema into an array schema. -/
theorem needle_infix_marshalArr (inner : JSchema)
    (h : refNeedle <:+: marshalSchema inner) :
    refNeedle <:+: marshalSchema (JSchema.arr inner) := by
  obtain ⟨u, v, huv⟩ := h
  refine ⟨lbrace :: ("\"type\":\"array\",\"items\":").data ++ u, v ++ [rbrace], ?_⟩
  simp only [marshalSchema]
  rw [← huv]
  simp [List.append_assoc]

/-- The needle survives wrapping the properties into an object schema. -/
theorem needle_infix_marshalObj (props : List (String × JSchema))
    (req : List String) (ap : Bool)
    (h : refNeedle <:+: marshalProps props) :
    refNeedle <:+: marshalSchema (JSchema.obj props req ap) := by
  obtain ⟨u, v, huv⟩ := h
  refine ⟨lbrace :: ("\"type\":\"object\",\"properties\":").data ++ lbrace :: u,
          v ++ ([rbrace]
            ++ (if ap then (",\"additionalProperties\":false").data else [])
            ++ (if req.isEmpty then []
                else (",\"required\":[").data ++ marshalRequired req ++ [']'])
            ++ [rbrace]), ?_⟩
  simp only [marshalSchema]
  rw [← huv]
  simp [List.append_assoc]

mutual

/-- A field type that needs an external reference puts the needle into
its marshalled schema. -/
theorem needle_infix_reflectType :
    ∀ t : GoType, hasNamedRef t = true → refNeedle <:+: marshalSchema (reflectType t)
  | .int, h => by simp [hasNamedRef] at h
  | .str, h => by simp [hasNamedRef] at h
  | .bool, h => by simp [hasNamedRef] at h
  | .slice t, h => by
      have ih := needle_infix_reflectType t (by simpa [hasNamedRef] using h)
      rw [reflectType]
      exact needle_infix_marshalArr _ ih
  | .structT name fields, h => by
      by_cases hn : (name == "") = true
      · have hf : hasNamedRefFields fields = true := by
          simpa [hasNamedRef, hn] using h
        rw [reflectType, if_pos hn]
        exact needle_infix_marshalObj _ _ _ (needle_infix_reflectFields fields hf)
      · rw [reflectType, if_neg hn]
        exact needle_infix_ref name
termination_by t => sizeOf t
decreasing_by all_goals simp_wf <;> omega

/-- A field list that needs an external reference puts the needle into
the marshalled properties. -/
theorem needle_infix_reflectFields :
    ∀ fields : List (String × Bool × GoType), hasNamedRefFields fields = true →
      refNeedle <:+: marshalProps (reflectFields fields)
  | [], h => by simp [hasNamedRefFields] at h
  | [(n, o, t)], h => by
      have ht : hasNamedRef t = true := by
        simpa [hasNamedRefFields] using h
      obtain ⟨u, v, huv⟩ := needle_infix_reflectType t ht
      refine ⟨jsonStr n ++ ':' :: u, v, ?_⟩
      simp only [reflectFields, marshalProps]
      rw [← huv]
      simp [List.append_assoc]
  | (n, o, t) :: f2 :: r2, h => by
      have h' : hasNamedRef t = true ∨ hasNamedRefFields (f2 :: r2) = true := by
        simpa [hasNamedRefFields, Bool.or_eq_true] using h
      rcases h' with ht | hr
      · obtain ⟨u, v, huv⟩ := needle_infix_reflectType t ht
        refine ⟨jsonStr n ++ ':' :: u,
                v ++ ',' :: marshalProps (reflectFields (f2 :: r2)), ?_⟩
        simp only [reflectFields, marshalProps]
        rw [← huv]
        simp [List.append_assoc]
      · obtain ⟨u, v, huv⟩ := needle_infix_reflectFields (f2 :: r2) hr
        refine ⟨jsonStr n ++ ':' :: marshalSchema (reflectType t) ++ ',' :: u, v, ?_⟩
        have hexp : marshalProps (reflectFields ((n, o, t) :: f2 :: r2))
            = jsonStr n ++ ':' :: marshalSchema (reflectType t)
              ++ ',' :: marshalProps (reflectFields (f2 :: r2)) := by
          simp only [reflectFields, marshalProps]
        rw [hexp, ← huv]
        simp [List.append_assoc]
termination_by fields => sizeOf fields
decreasing_by all_goals simp_wf <;> omega

end

/-- The marshalled top-level object schema contains the needle whenever
some field needs an external reference. -/
theorem needle_infix_topObj (fields : List (String × Bool × GoType))
    (req : List String) (ap : Bool) (h : hasNamedRefFields fields = true) :
    refNeedle <:+: marshalSchema (JSchema.obj (reflectFields fields) req ap) :=
  needle_infix_marshalObj _ _ _ (needle_infix_reflectFields fields h)

/-- A fresh registration of a one-argument handler over a named struct
reduces to the `$ref` check: rejected with the descriptive error when
the marshalled definition contains the needle, stored with the top-level
`additionalProperties` cleared otherwise. -/
theorem RegisterFunc_run (s : Service) (fn : Func) (N : String)
    (fields : List (String × Bool × GoType))
    (hfresh : s.Functions.lookup fn.Name = none)
    (harity : fn.Fn.numIn = 1)
    (harg : fn.Fn.argType = .structT N fields)
    (hN : N ≠ "") :
    RegisterFunc s fn
      = (if stringContains
             (marshalSchema (JSchema.obj (reflectFields fields) (requiredOf fields) true))
             refNeedle
         then (s, some (refErrMsg fn.Name))
         else ({ s with Functions :=
                  (fn.Name,
                   { fn with
                      schema := some (JSchema.obj (reflectFields fields) (requiredOf fields) false) })
                    :: s.Functions },
               none)) := by
  have hb : (N == "") = false := beq_eq_false_iff_ne.mpr hN
  unfold RegisterFunc
  rw [hfresh, harity, harg]
  simp only [Option.isSome_none, Bool.false_eq_true, if_false, beq_self_eq_true,
    Bool.not_true, GoType.isStruct, reflectSchema, GoType.typeName, collectDefs, hb,
    List.nil_append, List.cons_append, List.lookup]

/-- C6. For every fresh handler whose named input struct reaches a
distinct named struct through its fields (possibly through slices or
anonymous structs), `RegisterFunc` fails with the `$ref` error — whose
text contains the function's name — and the function is not
registered. -/
theorem RegisterFunc_rejects_external_ref (s : Service) (fn : Func) (N : String)
    (fields : List (String × Bool × GoType))
    (hfresh : s.Functions.lookup fn.Name = none)
    (harity : fn.Fn.numIn = 1)
    (harg : fn.Fn.argType = .structT N fields)
    (hN : N ≠ "")
    (href : hasNamedRefFields fields = true) :
    RegisterFunc s fn = (s, some (refErrMsg fn.Name))
    ∧ fn.Name.data <:+: (refErrMsg fn.Name).data
    ∧ (RegisterFunc s fn).1.Functions.lookup fn.Name = none := by
  have hrun := RegisterFunc_run s fn N fields hfresh harity harg hN
  have hcont : stringContains
      (marshalSchema (JSchema.obj (reflectFields fields) (requiredOf fields) true))
      refNeedle = true := by
    exact decide_eq_true (needle_infix_topObj fields (requiredOf fields) true href)
  rw [hcont, if_pos rfl] at hrun
  refine ⟨hrun, ?_, by rw [hrun]; exact hfresh⟩
  rw [refErrMsg]
  refine ⟨("schema for function '").data,
    ("' contains a $ref to an external definition. this is currently not supported. see https://go.inferable.ai/go-schema-limitation for details").data,
    ?_⟩
  simp [List.append_assoc]

/-- Witness for C6: the example handler whose input nests the named
struct `F` through a slice is rejected, the error names the function,
and the registry stays empty. -/
theorem RegisterFunc_rejects_external_ref_witness :
    RegisterFunc exService exRefFn = (exService, some (refErrMsg exRefFn.Name))
    ∧ exRefFn.Name.data <:+: (refErrMsg exRefFn.Name).data
    ∧ (RegisterFunc exService exRefFn).1.Functions.lookup exRefFn.Name = none :=
  RegisterFunc_rejects_external_ref exService exRefFn "TestInput2" exRefFields
    rfl rfl rfl (by decide) (by decide)

/-- C7. For every fresh handler whose sole parameter is a named struct
over primitive, slice, and anonymous-record fields with `$`-free json
names (so no external reference is generated), `RegisterFunc` succeeds
and stores an object schema whose `required` list is exactly the json
names of the fields without an `omitempty` marker. -/
theorem RegisterFunc_schema_shape (s : Service) (fn : Func) (N : String)
    (fields : List (String × Bool × GoType))
    (hfresh : s.Functions.lookup fn.Name = none)
    (harity : fn.Fn.numIn = 1)
    (harg : fn.Fn.argType = .structT N fields)
    (hN : N ≠ "")
    (hsafe : inlineSafeFields fields = true) :
    (RegisterFunc s fn).2 = none
    ∧ (RegisterFunc s fn).1.Functions.lookup fn.Name
        = some { fn with
            schema := some (JSchema.obj (reflectFields fields) (requiredOf fields) false) }
    ∧ requiredOf fields = (fields.filter (fun f => !f.2.1)).map (fun f => f.1) := by
  have hrun := RegisterFunc_run s fn N fields hfresh harity harg hN
  have hcont : stringContains
      (marshalSchema (JSchema.obj (reflectFields fields) (requiredOf fields) true))
      refNeedle = false :=
    contains_eq_false_of_no_dollar (noDollar_topObj fields hsafe)
  rw [hcont] at hrun
  simp only [Bool.false_eq_true, if_false] at hrun
  refine ⟨by rw [hrun], ?_, rfl⟩
  rw [hrun]
  simp [List.lookup]

/-- Witness for C7: registering the echo handler (fields `a` required,
`b` optional) succeeds and stores the expected object schema. -/
theorem RegisterFunc_schema_shape_witness :
    (RegisterFunc exService exEcho).2 = none
    ∧ (RegisterFunc exService exEcho).1.Functions.lookup exEcho.Name
        = some { exEcho with
            schema := some (JSchema.obj (reflectFields [("a", false, .int), ("b", true, .str)]) (requiredOf [("a", false, .int), ("b", true, .str)]) false) }
    ∧ requiredOf [("a", false, .int), ("b", true, .str)]
        = ([("a", false, GoType.int), ("b", true, GoType.str)].filter
            (fun f => !f.2.1)).map (fun f => f.1) :=
  RegisterFunc_schema_shape exService exEcho "TestInput"
    [("a", false, .int), ("b", true, .str)] rfl rfl rfl (by decide) (by decide)

end Inferable
